import Mathlib

/-!
Verification of the remote fleet orchestration layer of the `menu` repository
(`ssh_service.py`, `command_builder.py`, `app.py`).

The Python code is shallowly embedded: Python strings are modelled as `String`
or `List Char` (all character-level operations are written as structural
recursions so that concrete runs reduce in the kernel), Python dictionaries as
association lists with replace-on-insert semantics, raised exceptions as
`Except`, and the outcome of network or process I/O as explicit oracle
parameters.  Each definition names the source function it embeds.
-/

deriving instance DecidableEq for Except

namespace Menu

/- ===================== generic string / list helpers ===================== -/

/-- Boolean prefix test on character lists (model of Python `str.startswith`). -/
def myIsPrefix : List Char → List Char → Bool
  | [], _ => true
  | _ :: _, [] => false
  | a :: as, b :: bs => if a = b then myIsPrefix as bs else false

/-- Boolean suffix test on character lists (model of Python `str.endswith`). -/
def myIsSuffix (suf cs : List Char) : Bool :=
  myIsPrefix suf.reverse cs.reverse

/-- Characters Python `str.strip()` removes (ASCII whitespace). -/
def isWsChar (c : Char) : Bool :=
  c = ' ' || c = '\t' || c = '\n' || c = '\r' || c = '\x0b' || c = '\x0c'

/-- Model of Python `str.strip()` on character lists. -/
def trimChars (cs : List Char) : List Char :=
  ((cs.dropWhile isWsChar).reverse.dropWhile isWsChar).reverse

/-- Model of Python `s.split('\n')` restricted to newline separators
(the pipeline below only ever deals with `'\n'`-separated command output). -/
def splitNl : List Char → List (List Char)
  | [] => [[]]
  | c :: rest =>
    if c = '\n' then [] :: splitNl rest
    else
      match splitNl rest with
      | l :: ls => (c :: l) :: ls
      | [] => [[c]]

/-- Model of Python `'\n'.join(...)` on character lists. -/
def joinNl : List (List Char) → List Char
  | [] => []
  | [l] => l
  | l :: ls => l ++ '\n' :: joinNl ls

/-- Suffix of `cs` strictly after the last occurrence of `t`, when `t` occurs. -/
def afterLast (t : Char) : List Char → Option (List Char)
  | [] => none
  | c :: rest =>
    match afterLast t rest with
    | some s => some s
    | none => if c = t then some rest else none

/-- Decimal digit-string value (model of Python `int` on an all-digit string). -/
def digitsToNat (cs : List Char) : Nat :=
  cs.foldl (fun acc c => acc * 10 + (c.toNat - ('0').toNat)) 0

/-- Association-list read: model of a Python `dict` lookup / `get`. -/
def alistGet {α β : Type} [DecidableEq α] : List (α × β) → α → Option β
  | [], _ => none
  | (k0, v) :: rest, k => if k0 = k then some v else alistGet rest k

/-- Association-list write: model of Python `d[k] = v` (replace in place,
otherwise append; insertion order of the first write is kept). -/
def alistPut {α β : Type} [DecidableEq α] : List (α × β) → α → β → List (α × β)
  | [], k, v => [(k, v)]
  | (k0, v0) :: rest, k, v =>
    if k0 = k then (k0, v) :: rest else (k0, v0) :: alistPut rest k v

/-- Association-list delete: model of Python `del d[k]`. -/
def eraseKey {α β : Type} [DecidableEq α] : List (α × β) → α → List (α × β)
  | [], _ => []
  | (k0, v0) :: rest, k =>
    if k0 = k then rest else (k0, v0) :: eraseKey rest k

/- ===================== execution engine: _execute_shell_command ==========
   Source: ssh_service.py lines 92-129. -/

/-- Literal body of the first alternative of the prompt regex
`\[sudo\] (senha|password) para .*:` used at ssh_service.py:114. -/
def sudoLit1 : List Char := ("[sudo] senha para ").data

/-- Literal body of the second alternative of the prompt regex. -/
def sudoLit2 : List Char := ("[sudo] password para ").data

/-- Leftmost occurrence of one of the two sudo-prompt literals in a line:
returns the characters before the occurrence and the characters after the
matched literal. -/
def findPromptSplit : List Char → Option (List Char × List Char)
  | [] => none
  | c :: rest =>
    if sudoLit1.isPrefixOf (c :: rest) then
      some ([], (c :: rest).drop sudoLit1.length)
    else if sudoLit2.isPrefixOf (c :: rest) then
      some ([], (c :: rest).drop sudoLit2.length)
    else
      match findPromptSplit rest with
      | some (before, after) => some (c :: before, after)
      | none => none

/-- Effect of `re.sub(r'\[sudo\] (senha|password) para .*:', '', line)` on one
line: the greedy `.*:` extends the match to the last colon of the line; when
the literal occurs but no colon follows, the regex does not match at all. -/
def stripSudoPromptLine (line : List Char) : List Char :=
  match findPromptSplit line with
  | some (before, after) =>
    match afterLast ':' after with
    | some suffix => before ++ suffix
    | none => line
  | none => line

/-- ssh_service.py:112-115: the decoded stderr is stripped, the sudo prompt is
erased (the regex never matches across `'\n'`), and the result stripped again. -/
def cleanedStderrChars (raw : List Char) : List Char :=
  trimChars (joinNl ((splitNl (trimChars raw)).map stripSudoPromptLine))

/-- String form of `cleaned_error_output` at ssh_service.py:115. -/
def cleanedStderr (raw : String) : String :=
  String.mk (cleanedStderrChars raw.data)

/-- Warning marker checked at ssh_service.py:118 (`line.strip().startswith('W:')`). -/
def wMark : List Char := ("W:").data

/-- Classification predicate of ssh_service.py:118. -/
def isWarnLine (l : List Char) : Bool :=
  myIsPrefix wMark (trimChars l)

/-- The `warnings` list of ssh_service.py:118. -/
def warningLines (raw : String) : List (List Char) :=
  (splitNl (cleanedStderrChars raw.data)).filter isWarnLine

/-- The `errors` list of ssh_service.py:119: non-warning lines whose stripped
form is non-empty. -/
def errorLines (raw : String) : List (List Char) :=
  (splitNl (cleanedStderrChars raw.data)).filter
    (fun l => !(isWarnLine l) && !(trimChars l).isEmpty)

/-- The `'\n'.join(warnings) if warnings else None` expression of
ssh_service.py:126 and 129. -/
def joinedWarnings (raw : String) : Option String :=
  match warningLines raw with
  | [] => none
  | ls => some (String.mk (joinNl ls))

/-- Exception raised at ssh_service.py:123 (class from command_builder.py:9). -/
structure CommandExecutionError where
  message : String
  details : String
  warnings : Option String
  deriving DecidableEq, Repr

def failMsgPre : String := "O comando falhou com o código de saída "

def failMsgSuf : String := "."

def failMsg (n : Nat) : String := failMsgPre ++ toString n ++ failMsgSuf

/-- The `error_details` expression of ssh_service.py:122: the joined error
lines, or the whole cleaned stderr when no line classified as an error. -/
def errDetailsOf (raw : String) : String :=
  match errorLines raw with
  | [] => cleanedStderr raw
  | ls => String.mk (joinNl ls)

/-- Model of `_execute_shell_command` (ssh_service.py:92-129) from the point
where the remote exit status and the decoded stdout/stderr text are known.
Raising `CommandExecutionError` is modelled as `Except.error`. -/
def _execute_shell_command (exit_status : Nat) (output : String)
    (raw_stderr : String) :
    Except CommandExecutionError (String × Option String × Option String) :=
  if exit_status ≠ 0 then
    Except.error
      { message := failMsg exit_status
        details := errDetailsOf raw_stderr
        warnings := joinedWarnings raw_stderr }
  else
    Except.ok (output, joinedWarnings raw_stderr, none)

/-- Boolean success test for `Except` results. -/
def execOk {ε α : Type} : Except ε α → Bool
  | Except.ok _ => true
  | Except.error _ => false

/- ===================== _normalize_shortcut_name ==========================
   Source: ssh_service.py lines 194-202. -/

def desktopExt : String := ".desktop"

def desktopChars : List Char := desktopExt.data

/-- Model of `filename.endswith('.desktop')`. -/
def endsWithDesktop (cs : List Char) : Bool :=
  myIsSuffix desktopChars cs

/-- Separator class of the regex `[-_]?\d+$` (ssh_service.py:199). -/
def isSepChar (c : Char) : Bool := c = '-' || c = '_'

/-- Characters removed by `strip(' -_')` at ssh_service.py:200. -/
def isStripChar (c : Char) : Bool := c = ' ' || c = '-' || c = '_'

/-- Effect of `re.sub(r'[-_]?\d+$', '', name_part)` (ssh_service.py:199):
remove a maximal trailing digit run together with one optional `-`/`_`
immediately before it; a stem without a trailing digit is unchanged. -/
def stripNumericTail (cs : List Char) : List Char :=
  let r := cs.reverse
  match r.takeWhile Char.isDigit with
  | [] => cs
  | _ :: _ =>
    match r.dropWhile Char.isDigit with
    | [] => []
    | c :: tl => if isSepChar c then tl.reverse else (c :: tl).reverse

/-- Model of `_normalize_shortcut_name` (ssh_service.py:194-202) on character
lists. -/
def normalizeShortcutChars (cs : List Char) : List Char :=
  if endsWithDesktop cs then
    let stem := cs.take (cs.length - desktopChars.length)
    let stripped := stripNumericTail stem
    if stripped.all isStripChar then cs else stripped ++ desktopChars
  else cs

/-- Model of `_normalize_shortcut_name` (ssh_service.py:194-202). -/
def _normalize_shortcut_name (filename : String) : String :=
  String.mk (normalizeShortcutChars filename.data)

/- ===================== _parse_system_info ================================
   Source: command_builder.py lines 39-54. -/

/-- Leftmost-`re.search` model for the patterns
`START(.*?)\nEND` with `re.DOTALL` used at command_builder.py:44-47: find the
leftmost index where `pat` starts. -/
def indexOfSub (pat : List Char) : List Char → Option Nat
  | [] => if myIsPrefix pat [] then some 0 else none
  | c :: rest =>
    if myIsPrefix pat (c :: rest) then some 0
    else
      match indexOfSub pat rest with
      | some i => some (i + 1)
      | none => none

/-- Captured group of `re.search(startPat + '(.*?)' + endPat, text, re.DOTALL)`:
leftmost start of `startPat` followed somewhere by `endPat`; the lazy `(.*?)`
takes the shortest middle, i.e. up to the first later `endPat`. -/
def extractBetween (startPat endPat : List Char) : List Char → Option (List Char)
  | [] => none
  | c :: rest =>
    if myIsPrefix startPat (c :: rest) then
      match indexOfSub endPat ((c :: rest).drop startPat.length) with
      | some j => some (((c :: rest).drop startPat.length).take j)
      | none => extractBetween startPat endPat rest
    else extractBetween startPat endPat rest

def naStr : String := "N/A"

def newlineSep : String := "\n"

def cpuStartMark : String := "---CPU_USAGE---"

def memMark : String := "----MEMORY----"

def diskMark : String := "----DISK----"

def uptimeMark : String := "----UPTIME----"

def endMark : String := "----END----"

def nlMemMark : String := newlineSep ++ memMark

def nlDiskMark : String := newlineSep ++ diskMark

def nlUptimeMark : String := newlineSep ++ uptimeMark

def nlEndMark : String := newlineSep ++ endMark

/-- One `match.group(1).strip() if match else "N/A"` step of
command_builder.py:50-53. -/
def sectionOf (startPat endPat : String) (output : String) : String :=
  match extractBetween startPat.data endPat.data output.data with
  | some cs => String.mk (trimChars cs)
  | none => naStr

def cpuKey : String := "cpu"

def memKey : String := "memory"

def diskKey : String := "disk"

def uptimeKey : String := "uptime"

/-- Model of `_parse_system_info` (command_builder.py:39-54); the Python dict
is modelled as an association list in insertion order. -/
def _parse_system_info (output : String) : List (String × String) :=
  [(cpuKey, sectionOf cpuStartMark nlMemMark output),
   (memKey, sectionOf memMark nlDiskMark output),
   (diskKey, sectionOf diskMark nlUptimeMark output),
   (uptimeKey, sectionOf uptimeMark nlEndMark output)]

/- ===================== per-account fan-out ===============================
   Source: ssh_service.py lines 355-445 (_execute_for_each_user), from the
   point where the account list has been enumerated. -/

/-- Shape of one per-account result dictionary
(`{"success": ..., "message": ..., "details": ...}`). -/
structure UserResult where
  success : Bool
  message : String
  details : Option String
  deriving DecidableEq, Repr

/-- Payload of a `CommandExecutionError` as consumed at ssh_service.py:417-422. -/
structure CmdErrInfo where
  details : Option String
  warnings : Option String
  deriving DecidableEq, Repr

/-- Outcome of running the action for one account: a result dictionary, a
raised `CommandExecutionError`, or any other raised exception. -/
inductive ActionOutcome where
  | ok (r : UserResult)
  | cmdError (e : CmdErrInfo)
  | exn (msg : String)
  deriving DecidableEq, Repr

def avisosTag : String := "Avisos: "

def errosTag : String := "Erros: "

def remoteErrMsg : String := "Ocorreu um erro no dispositivo remoto."

def unexpectedExnMsg : String := "Ocorreu uma exceção inesperada no servidor."

/-- Details string assembled at ssh_service.py:419-421. -/
def cmdErrDetails (e : CmdErrInfo) : String :=
  String.mk (joinNl
    ((match e.warnings with
      | some w => [(avisosTag ++ w).data]
      | none => []) ++
     (match e.details with
      | some d => [(errosTag ++ d).data]
      | none => [])))

/-- The entry stored in `results[user]` for each possible outcome
(ssh_service.py:416, 417-422, 423-426). -/
def entryFor : ActionOutcome → UserResult
  | ActionOutcome.ok r => r
  | ActionOutcome.cmdError e =>
    { success := false, message := remoteErrMsg, details := some (cmdErrDetails e) }
  | ActionOutcome.exn m =>
    { success := false, message := unexpectedExnMsg, details := some m }

/-- Aggregate response payload of ssh_service.py:428-445. -/
structure FanOutResult where
  allSucceeded : Bool
  successCount : Nat
  userResults : List (String × UserResult)
  httpStatus : Nat
  deriving DecidableEq, Repr

/-- Model of the per-account loop and aggregation of `_execute_for_each_user`
(ssh_service.py:395-445).  `users` is the enumerated account list (assumed
pairwise distinct, as produced by `getent passwd`); `act` gives the outcome of
the action for each account. -/
def _execute_for_each_user (users : List String) (act : String → ActionOutcome) :
    FanOutResult :=
  let results := users.map (fun u => (u, entryFor (act u)))
  let allSuccess := results.all (fun p => p.2.success)
  { allSucceeded := allSuccess
    successCount := (results.filter (fun p => p.2.success)).length
    userResults := results
    httpStatus := if allSuccess then 200 else 207 }

/- ===================== ssh_connect host-key reconciliation ===============
   Source: ssh_service.py lines 17-30 (_fix_host_key) and 32-61 (ssh_connect). -/

/-- Exception class observed by `ssh_connect`: `hostKeyMismatch` is a
`paramiko.SSHException` whose text contains both "host key for server" and
"does not match"; `otherError` is any other connection or authentication
error. -/
inductive ConnErrKind where
  | hostKeyMismatch
  | otherError
  deriving DecidableEq, Repr

/-- A raised connection error; `id` distinguishes distinct exception objects
(e.g. the error of the first attempt from the error of the retry). -/
structure ConnError where
  kind : ConnErrKind
  id : Nat
  deriving DecidableEq, Repr

/-- Oracle describing how the environment behaves during one `ssh_connect`
call: the outcome of the first `ssh.connect`, of `_fix_host_key`, and of the
reconnect attempt (`none` = success). -/
structure ConnEnv where
  attempt1 : Option ConnError
  fixWorks : Bool
  attempt2 : Option ConnError
  deriving DecidableEq, Repr

/-- Observable outcome of `ssh_connect`: either the context manager yields a
connection, or an exception escapes; the flags record whether `_fix_host_key`
was invoked and whether a reconnect was attempted. -/
inductive ConnOutcome where
  | connected (fixInvoked retried : Bool)
  | failed (e : ConnError) (fixInvoked retried : Bool)
  deriving DecidableEq, Repr

/-- Model of `ssh_connect` (ssh_service.py:32-61).  On a host-key-mismatch
`SSHException` with `auto_fix_key` enabled, `_fix_host_key` is invoked; if it
succeeds the connection is retried once (line 54, outside any try, so a retry
failure propagates the retry's own exception); if it fails the original
exception is re-raised (line 57).  Every other error is re-raised at once
(line 59). -/
def ssh_connect (autoFixKey : Bool) (env : ConnEnv) : ConnOutcome :=
  match env.attempt1 with
  | none => ConnOutcome.connected false false
  | some e =>
    if e.kind = ConnErrKind.hostKeyMismatch ∧ autoFixKey = true then
      if env.fixWorks then
        match env.attempt2 with
        | none => ConnOutcome.connected true true
        | some e2 => ConnOutcome.failed e2 true true
      else ConnOutcome.failed e true false
    else ConnOutcome.failed e false false

/- ===================== SFTP restore with fuzzy matching ==================
   Source: ssh_service.py lines 231-276 (sftp_restore_shortcuts). -/

/-- A backup entry or request path, as the pair (subdirectory name, file
name); `posixpath.join`/`dirname`/`basename` round-trip this pair for the
slash-free names involved. -/
abbrev PathKey := String × String

/-- Index construction of ssh_service.py:242-252: every `.desktop` file under
the backup root is keyed by (subdirectory, normalized name); a duplicate
normalized key keeps the position of the first write and the value of the
last (Python dict assignment). -/
def buildBackupsMap (entries : List PathKey) : List (PathKey × PathKey) :=
  entries.foldl
    (fun m e =>
      if endsWithDesktop e.2.data then
        alistPut m (e.1, _normalize_shortcut_name e.2) e
      else m)
    []

def restoreFailPre : String := "Falha ao restaurar "

def missWarnPre : String := "Atalho '"

def missWarnSuf : String := "' não encontrado no backup desta máquina."

/-- Error message of ssh_service.py:271 (the IOError text is elided). -/
def restoreFailMsg (f : String) : String := restoreFailPre ++ f

/-- Warning message of ssh_service.py:273. -/
def missWarnMsg (f : String) : String := missWarnPre ++ f ++ missWarnSuf

/-- Result of the restore loop: the count, the real backup entries moved to
the desktop directory, and the accumulated error and warning messages. -/
structure RestoreResult where
  restoredCount : Nat
  moved : List PathKey
  errors : List String
  warnings : List String
  deriving DecidableEq, Repr

/-- The lookup of ssh_service.py:256-261 for one requested path. -/
def lookupReal (m : List (PathKey × PathKey)) (req : PathKey) : Option PathKey :=
  alistGet m (req.1, _normalize_shortcut_name req.2)

/-- The per-request loop of ssh_service.py:256-273; `renameOk` tells whether
`sftp.rename` succeeds for a given source entry. -/
def restoreGo (m : List (PathKey × PathKey)) (renameOk : PathKey → Bool) :
    List PathKey → RestoreResult
  | [] => { restoredCount := 0, moved := [], errors := [], warnings := [] }
  | req :: rs =>
    let rest := restoreGo m renameOk rs
    match lookupReal m req with
    | some real =>
      if renameOk real then
        { rest with
            restoredCount := rest.restoredCount + 1
            moved := real :: rest.moved }
      else
        { rest with errors := restoreFailMsg real.2 :: rest.errors }
    | none => { rest with warnings := missWarnMsg req.2 :: rest.warnings }

/-- Model of `sftp_restore_shortcuts` (ssh_service.py:231-276) from the point
where the desktop directory is resolved: `entries` are the (subdirectory,
filename) pairs found under the backup root, `requests` the requested paths. -/
def sftp_restore_shortcuts (entries requests : List PathKey)
    (renameOk : PathKey → Bool) : RestoreResult :=
  restoreGo (buildBackupsMap entries) renameOk requests

/- ===================== host discovery ====================================
   Source: app.py lines 283-346 (discover_ips). -/

def emptyStr : String := ""

/-- Trailing numeric component of a dotted address
(`int(ip.split('.')[-1])` at app.py:344; addresses are dotted decimals). -/
def lastOctet (ip : String) : Nat :=
  digitsToNat
    (match afterLast '.' ip.data with
     | some cs => cs
     | none => ip.data)

/-- One insertion step of a stable sort by `lastOctet` (Python `list.sort`
with that key). -/
def insertByOctet (x : String) : List String → List String
  | [] => [x]
  | y :: ys =>
    if lastOctet y < lastOctet x then y :: insertByOctet x ys
    else x :: y :: ys

/-- Stable sort by `lastOctet` modelling `active_ips.sort(key=...)`
(app.py:343-344). -/
def sortByOctet : List String → List String
  | [] => []
  | x :: xs => insertByOctet x (sortByOctet xs)

/-- Strategy selection of app.py:295-320: use the nmap result when non-empty,
else the port-checked arp-scan result when arp-scan returned something, else
the port-check of the whole configured range.  `none` or `some []` both mean
the strategy found nothing (Python falsiness). -/
def pickCandidates (nmapRes arpRes : Option (List String))
    (portCheck : List String → List String) (fullRange : List String) :
    List String :=
  match nmapRes with
  | some (x :: xs) => x :: xs
  | _ =>
    match arpRes with
    | some (y :: ys) => portCheck (y :: ys)
    | _ => portCheck fullRange

/-- One removal block of app.py:327-334: when the optional address is truthy,
the list non-empty and the address present, remove its first occurrence
(`list.remove`); otherwise leave the list alone.  The same code shape is used
for the server's own address and for the gateway address. -/
def dropIp (l : List String) (o : Option String) : List String :=
  match o with
  | some x => if x ≠ emptyStr ∧ l ≠ [] ∧ x ∈ l then l.erase x else l
  | none => l

/-- Exclusion filter of app.py:337-340, guarded by Python truthiness of both
lists. -/
def dropExcluded (l : List String) (exclusions : List String) : List String :=
  if l ≠ [] ∧ exclusions ≠ [] then l.filter (fun ip => decide (ip ∉ exclusions))
  else l

/-- Post-processing of app.py:326-344: remove the server's own address, then
the gateway address, then every excluded address, then sort by trailing
numeric component (the sort is skipped on an empty list). -/
def discover_post (candidates : List String) (server_ip gateway_ip : Option String)
    (exclusions : List String) : List String :=
  if dropExcluded (dropIp (dropIp candidates server_ip) gateway_ip) exclusions ≠ [] then
    sortByOctet (dropExcluded (dropIp (dropIp candidates server_ip) gateway_ip) exclusions)
  else dropExcluded (dropIp (dropIp candidates server_ip) gateway_ip) exclusions

/-- Model of `discover_ips` (app.py:283-346): strategy selection followed by
filtering and sorting; the route always answers with a list, never an error. -/
def discover_ips (nmapRes arpRes : Option (List String))
    (portCheck : List String → List String) (fullRange : List String)
    (server_ip gateway_ip : Option String) (exclusions : List String) :
    List String :=
  discover_post (pickCandidates nmapRes arpRes portCheck fullRange)
    server_ip gateway_ip exclusions

/- ===================== VNC tunnel registry ===============================
   Source: app.py lines 759-932 (_start_vnc_tunnel) and the module-level
   `vnc_processes` dict. -/

/-- How one `_start_vnc_tunnel` call plays out after the old process (if any)
has been replaced: `spawnFails` = `subprocess.Popen` raises; `ready` = a
readiness signature was observed; `notReady` = the wait expired or a failure
signature matched; `exnAfterSpawn` = an unexpected exception after the child
was registered. -/
inductive TunnelOutcome where
  | spawnFails
  | ready
  | notReady
  | exnAfterSpawn
  deriving DecidableEq, Repr

/-- Result of one `_start_vnc_tunnel` call: the registry afterwards, the
processes terminated during the call (pid, whether the forced kill was
needed), and the success flag. -/
structure TunnelStep where
  registry : List (String × Nat)
  terminated : List (Nat × Bool)
  success : Bool
  deriving DecidableEq, Repr

/-- Terminate-then-kill of app.py:768-772 / 913-916: graceful terminate, and a
forced kill when the grace window expires. -/
def killProc (pid : Nat) (graceOk : Bool) : Nat × Bool := (pid, !graceOk)

/-- Model of `_start_vnc_tunnel` (app.py:759-932) as a transition on the
`vnc_processes` registry.  `newPid` identifies the child spawned by `Popen`;
`graceOldOk`/`graceNewOk` tell whether the respective graceful terminations
finish within their grace windows; the 150-line readiness-classification loop
is abstracted into `outcome`. -/
def _start_vnc_tunnel (reg : List (String × Nat)) (ip : String) (newPid : Nat)
    (graceOldOk graceNewOk : Bool) (outcome : TunnelOutcome) : TunnelStep :=
  let pre : List (String × Nat) × List (Nat × Bool) :=
    match alistGet reg ip with
    | some oldPid => (eraseKey reg ip, [killProc oldPid graceOldOk])
    | none => (reg, [])
  match outcome with
  | TunnelOutcome.spawnFails =>
    { registry := pre.1, terminated := pre.2, success := false }
  | TunnelOutcome.ready =>
    { registry := alistPut pre.1 ip newPid, terminated := pre.2, success := true }
  | TunnelOutcome.notReady =>
    { registry := eraseKey (alistPut pre.1 ip newPid) ip
      terminated := pre.2 ++ [killProc newPid graceNewOk]
      success := false }
  | TunnelOutcome.exnAfterSpawn =>
    { registry := eraseKey (alistPut pre.1 ip newPid) ip
      terminated := pre.2 ++ [killProc newPid graceNewOk]
      success := false }

/- ===================== SFTP disable ======================================
   Source: ssh_service.py lines 204-229 (sftp_disable_shortcuts). -/

def disableMsgPre : String := "Operação de desativação concluída. "

def disableMsgSuf : String := " atalhos movidos para backup."

/-- Completion message of ssh_service.py:229. -/
def disableDoneMsg (n : Nat) : String := disableMsgPre ++ toString n ++ disableMsgSuf

/-- Result of a disable call: the moved launcher files, the desktop listing
afterwards, the message and the (always absent) error component. -/
structure DisableResult where
  movedCount : Nat
  moved : List String
  remaining : List String
  message : String
  errors : Option String
  deriving DecidableEq, Repr

/-- Model of `sftp_disable_shortcuts` (ssh_service.py:204-229) from the point
where the desktop directory is resolved: every `.desktop` file in the listing
is moved into the backup subdirectory, the rest stays. -/
def sftp_disable_shortcuts (desktopFiles : List String) : DisableResult :=
  let moved := desktopFiles.filter (fun f => endsWithDesktop f.data)
  { movedCount := moved.length
    moved := moved
    remaining := desktopFiles.filter (fun f => !(endsWithDesktop f.data))
    message := disableDoneMsg moved.length
    errors := none }

/- ===================== SFTP backup listing ===============================
   Source: ssh_service.py lines 278-295 (list_sftp_backups). -/

/-- An entry of the backup root: a plain file, or a subdirectory with its file
listing. -/
inductive FsEntry where
  | file (name : String)
  | dir (name : String) (files : List String)
  deriving DecidableEq, Repr

def entryName : FsEntry → String
  | FsEntry.file n => n
  | FsEntry.dir n _ => n

/-- Model of `list_sftp_backups` (ssh_service.py:278-295): an absent backup
root yields the empty map; otherwise each subdirectory contributes its
`.desktop` files, and subdirectories without any are omitted. -/
def list_sftp_backups (rootExists : Bool) (entries : List FsEntry) :
    List (String × List String) :=
  if rootExists then
    entries.filterMap
      (fun e =>
        match e with
        | FsEntry.file _ => none
        | FsEntry.dir d fs =>
          let good := fs.filter (fun f => endsWithDesktop f.data)
          if good ≠ [] then some (d, good) else none)
  else []

/- ===================== concrete inputs used by witnesses and
   counterexamples ===================== -/

def demoOut : String := "saida"

def demoErrW : String := "[sudo] senha para admin:\nW: aviso um\nW: aviso dois"

def demoWJoined : String := "W: aviso um\nW: aviso dois"

def userA : String := "alice"

def userB : String := "bob"

def userC : String := "carol"

def users3 : List String := [userA, userB, userC]

def boomMsg : String := "explodiu"

def okActionMsg : String := "feito"

/-- Demo fan-out action: fails (by raising) for `userB` only. -/
def demoAct (u : String) : ActionOutcome :=
  if u = userB then ActionOutcome.exn boomMsg
  else ActionOutcome.ok { success := true, message := okActionMsg, details := none }

/-- Environment where the first attempt hits a host-key mismatch, the key
purge succeeds, and the retry fails with a different error class. -/
def retryFailEnv : ConnEnv :=
  { attempt1 := some { kind := ConnErrKind.hostKeyMismatch, id := 0 }
    fixWorks := true
    attempt2 := some { kind := ConnErrKind.otherError, id := 1 } }

/-- Environment where the first attempt hits a host-key mismatch, the key
purge succeeds, and the retry connects. -/
def remediatedEnv : ConnEnv :=
  { attempt1 := some { kind := ConnErrKind.hostKeyMismatch, id := 0 }
    fixWorks := true
    attempt2 := none }

def app142 : String := "App-142.desktop"

def app7 : String := "App-7.desktop"

def app999 : String := "App-999.desktop"

def appKey : String := "App.desktop"

def appStem : String := "App"

def digits142 : String := "142"

def digits7 : String := "7"

def digits5 : String := "5"

def appBare : String := "App7.desktop"

def bare5 : String := "5.desktop"

def cexName : String := "_-5.desktop"

def cexStem : String := "_-5"

def cexStripped : String := "_"

def dirDesk : String := "Desktop"

def demoEntries : List PathKey := [(dirDesk, app7)]

def demoRequests : List PathKey := [(dirDesk, app999)]

def ip101 : String := "192.168.0.101"

def ip105 : String := "192.168.0.105"

def ip110 : String := "192.168.0.110"

def scenServer : String := "192.168.0.50"

def scenGateway : String := "192.168.0.1"

/-- Candidate list of the discovery scenario, deliberately out of order. -/
def scenCandidates : List String := [ip110, ip101, scenGateway, ip105]

def scenExcl : List String := [scenGateway]

def ipA : String := "192.168.0.103"

def tunnelReg0 : List (String × Nat) := [(ipA, 7)]

def plainA : String := "notas.txt"

def plainB : String := "foto.png"

def plainFiles : List String := [plainA, plainB]

def backupFsDemo : List FsEntry :=
  [FsEntry.dir dirDesk [app7, plainA], FsEntry.dir scenServer [plainB]]

/-- Classification of one restore request: the index lookup misses. -/
def reqMiss (m : List (PathKey × PathKey)) (r : PathKey) : Bool :=
  (lookupReal m r).isNone

/-- Classification of one restore request: the lookup hits and the rename
succeeds. -/
def reqHitOk (m : List (PathKey × PathKey)) (renameOk : PathKey → Bool)
    (r : PathKey) : Bool :=
  match lookupReal m r with
  | some real => renameOk real
  | none => false

/-- Classification of one restore request: the lookup hits but the rename
fails. -/
def reqHitFail (m : List (PathKey × PathKey)) (renameOk : PathKey → Bool)
    (r : PathKey) : Bool :=
  match lookupReal m r with
  | some real => !(renameOk real)
  | none => false

/-- The real backup entry a request moves, when it hits and the rename
succeeds. -/
def reqMovedEntry (m : List (PathKey × PathKey)) (renameOk : PathKey → Bool)
    (r : PathKey) : Option PathKey :=
  match lookupReal m r with
  | some real => if renameOk real then some real else none
  | none => none

/- ========================================================================
   Theorems
   ======================================================================== -/

/-- Claim C1: `_execute_shell_command` raises `CommandExecutionError` iff the
remote exit status is non-zero; after stripping echoed sudo password-prompt
lines from stderr, the lines whose stripped form starts with `W:` become the
warnings and the other non-empty lines become the error details; exit status
0 returns success even when stderr holds only warning lines. -/
theorem C1_execute_shell_command_spec (es : Nat) (out err : String) :
    (execOk (_execute_shell_command es out err) = true ↔ es = 0)
    ∧ (es = 0 →
        _execute_shell_command es out err =
          Except.ok (out, joinedWarnings err, none))
    ∧ (es ≠ 0 →
        _execute_shell_command es out err =
          Except.error
            { message := failMsg es
              details := errDetailsOf err
              warnings := joinedWarnings err }) := by
  by_cases h : es = 0
  · refine ⟨?_, fun _ => ?_, fun h0 => absurd h h0⟩
    · simp [_execute_shell_command, h, execOk]
    · simp [_execute_shell_command, h]
  · refine ⟨?_, fun h0 => absurd h0 h, fun _ => ?_⟩
    · simp [_execute_shell_command, h, execOk]
    · simp [_execute_shell_command, h]

/-- Witness for C1 at exit status 0 and a stderr made of an echoed sudo
prompt plus warning lines only: the call succeeds and reports the warnings. -/
theorem C1_execute_shell_command_witness :
    execOk (_execute_shell_command 0 demoOut demoErrW) = true
    ∧ _execute_shell_command 0 demoOut demoErrW =
        Except.ok (demoOut, some demoWJoined, none) := by
  have h := C1_execute_shell_command_spec 0 demoOut demoErrW
  refine ⟨h.1.mpr rfl, ?_⟩
  rw [h.2.1 rfl]
  decide

/-- Claim C3 (amended): on a host-key-mismatch error with auto-fix enabled the
key-purge helper runs; if the purge succeeds the connection is retried exactly
once and a failing retry surfaces the retry's own error (not necessarily the
original error class); if the purge fails the original error is re-raised
without a retry; every other error propagates immediately with no fix and no
retry. -/
theorem C3_hostkey_retry_spec (autoFix : Bool) (env : ConnEnv) :
    (env.attempt1 = none →
        ssh_connect autoFix env = ConnOutcome.connected false false)
    ∧ (∀ e, env.attempt1 = some e →
        ¬(e.kind = ConnErrKind.hostKeyMismatch ∧ autoFix = true) →
        ssh_connect autoFix env = ConnOutcome.failed e false false)
    ∧ (∀ e, env.attempt1 = some e → e.kind = ConnErrKind.hostKeyMismatch →
        autoFix = true → env.fixWorks = false →
        ssh_connect autoFix env = ConnOutcome.failed e true false)
    ∧ (∀ e, env.attempt1 = some e → e.kind = ConnErrKind.hostKeyMismatch →
        autoFix = true → env.fixWorks = true → env.attempt2 = none →
        ssh_connect autoFix env = ConnOutcome.connected true true)
    ∧ (∀ e e2, env.attempt1 = some e → e.kind = ConnErrKind.hostKeyMismatch →
        autoFix = true → env.fixWorks = true → env.attempt2 = some e2 →
        ssh_connect autoFix env = ConnOutcome.failed e2 true true) := by
  refine ⟨fun h1 => ?_, fun e h1 hk => ?_, fun e h1 hk ha hf => ?_,
    fun e h1 hk ha hf h2 => ?_, fun e e2 h1 hk ha hf h2 => ?_⟩
  · simp [ssh_connect, h1]
  · simp [ssh_connect, h1, hk]
  · simp [ssh_connect, h1, hk, ha, hf]
  · simp [ssh_connect, h1, hk, ha, hf, h2]
  · simp [ssh_connect, h1, hk, ha, hf, h2]

/-- Counterexample to claim C3 as stated: first attempt fails with a host-key
mismatch, the purge succeeds, and the retry fails with a different error
class; `ssh_connect` surfaces the retry's error, not the original error
class. -/
theorem C3_hostkey_retry_counterexample :
    ssh_connect true retryFailEnv =
      ConnOutcome.failed { kind := ConnErrKind.otherError, id := 1 } true true
    ∧ ConnErrKind.otherError ≠ ConnErrKind.hostKeyMismatch := by
  decide

/-- Witness for C3: mismatch, successful purge, successful retry ends
connected with exactly one remediation attempt. -/
theorem C3_hostkey_retry_witness :
    ssh_connect true remediatedEnv = ConnOutcome.connected true true :=
  (C3_hostkey_retry_spec true remediatedEnv).2.2.2.1
    { kind := ConnErrKind.hostKeyMismatch, id := 0 } rfl rfl rfl rfl rfl

/-- Claim C8: `sftp_disable_shortcuts` on a desktop directory holding zero
launcher files moves nothing, reports success with the zero-count message,
and a repeated call returns the identical result. -/
theorem C8_disable_idempotent (files : List String)
    (h : ∀ f ∈ files, endsWithDesktop f.data = false) :
    sftp_disable_shortcuts files =
      { movedCount := 0, moved := [], remaining := files,
        message := disableDoneMsg 0, errors := none }
    ∧ sftp_disable_shortcuts (sftp_disable_shortcuts files).remaining =
        sftp_disable_shortcuts files := by
  have hf : files.filter (fun f => endsWithDesktop f.data) = [] := by
    rw [List.filter_eq_nil_iff]
    intro a ha
    simp [h a ha]
  have hr : files.filter (fun f => !(endsWithDesktop f.data)) = files := by
    rw [List.filter_eq_self]
    intro a ha
    simp [h a ha]
  have h1 : sftp_disable_shortcuts files =
      { movedCount := 0, moved := [], remaining := files,
        message := disableDoneMsg 0, errors := none } := by
    simp [sftp_disable_shortcuts, hf, hr]
  refine ⟨h1, ?_⟩
  rw [h1]
  exact h1

/-- Witness for C8 on a two-file desktop without launcher files. -/
theorem C8_disable_idempotent_witness :
    sftp_disable_shortcuts plainFiles =
      { movedCount := 0, moved := [], remaining := plainFiles,
        message := disableDoneMsg 0, errors := none } :=
  (C8_disable_idempotent plainFiles (by decide)).1

/-- Claim C9: on every input string `_parse_system_info` returns (without
raising) an association with exactly the keys cpu, memory, disk, uptime, and
maps every key whose delimited section is absent to "N/A". -/
theorem C9_parse_system_info_spec (s : String) :
    ((_parse_system_info s).map Prod.fst = [cpuKey, memKey, diskKey, uptimeKey])
    ∧ (extractBetween cpuStartMark.data nlMemMark.data s.data = none →
        (_parse_system_info s).lookup cpuKey = some naStr)
    ∧ (extractBetween memMark.data nlDiskMark.data s.data = none →
        (_parse_system_info s).lookup memKey = some naStr)
    ∧ (extractBetween diskMark.data nlUptimeMark.data s.data = none →
        (_parse_system_info s).lookup diskKey = some naStr)
    ∧ (extractBetween uptimeMark.data nlEndMark.data s.data = none →
        (_parse_system_info s).lookup uptimeKey = some naStr) := by
  have e1 : (cpuKey == cpuKey) = true := by decide
  have e2 : (memKey == cpuKey) = false := by decide
  have e3 : (memKey == memKey) = true := by decide
  have e4 : (diskKey == cpuKey) = false := by decide
  have e5 : (diskKey == memKey) = false := by decide
  have e6 : (diskKey == diskKey) = true := by decide
  have e7 : (uptimeKey == cpuKey) = false := by decide
  have e8 : (uptimeKey == memKey) = false := by decide
  have e9 : (uptimeKey == diskKey) = false := by decide
  have e10 : (uptimeKey == uptimeKey) = true := by decide
  refine ⟨rfl, fun h => ?_, fun h => ?_, fun h => ?_, fun h => ?_⟩ <;>
    simp [_parse_system_info, List.lookup, sectionOf, h,
      e1, e2, e3, e4, e5, e6, e7, e8, e9, e10]

/-- Witness for C9: the empty input has no section at all, and every key maps
to "N/A". -/
theorem C9_parse_system_info_witness :
    (_parse_system_info emptyStr).lookup cpuKey = some naStr
    ∧ (_parse_system_info emptyStr).lookup memKey = some naStr
    ∧ (_parse_system_info emptyStr).lookup diskKey = some naStr
    ∧ (_parse_system_info emptyStr).lookup uptimeKey = some naStr := by
  have h := C9_parse_system_info_spec emptyStr
  exact ⟨h.2.1 (by decide), h.2.2.1 (by decide), h.2.2.2.1 (by decide),
    h.2.2.2.2 (by decide)⟩

/-- Helper: a Boolean filter and its complement partition a list's length. -/
theorem filter_length_split {α : Type} (p : α → Bool) (l : List α) :
    (l.filter p).length + (l.filter (fun a => !(p a))).length = l.length := by
  induction l with
  | nil => rfl
  | cons a t ih =>
    by_cases h : p a
    · simp [List.filter_cons, h]
      omega
    · simp [List.filter_cons, h]
      omega

/-- Claim C2: in `_execute_for_each_user` the aggregate success flag is true
iff every per-account entry succeeded; each enumerated account gets its own
entry computed only from its own outcome (so one failure never aborts the
others); with exactly one failing account the aggregate is failure while the
remaining N−1 successful entries stay present. -/
theorem C2_fanout_spec (users : List String) (act : String → ActionOutcome) :
    ((_execute_for_each_user users act).allSucceeded = true ↔
      ∀ p ∈ (_execute_for_each_user users act).userResults, p.2.success = true)
    ∧ ((_execute_for_each_user users act).userResults =
        users.map (fun u => (u, entryFor (act u))))
    ∧ ((_execute_for_each_user users act).successCount =
        (users.filter (fun u => (entryFor (act u)).success)).length)
    ∧ ((users.filter (fun u => !((entryFor (act u)).success))).length = 1 →
        (_execute_for_each_user users act).allSucceeded = false
        ∧ (users.filter (fun u => (entryFor (act u)).success)).length =
            users.length - 1) := by
  refine ⟨?_, rfl, ?_, ?_⟩
  · simp [_execute_for_each_user, List.all_eq_true]
  · simp [_execute_for_each_user, List.filter_map, Function.comp_def]
  · intro h1
    constructor
    · cases hb : (_execute_for_each_user users act).allSucceeded with
      | false => rfl
      | true =>
        exfalso
        have hall : ∀ u ∈ users, (entryFor (act u)).success = true := by
          simp [_execute_for_each_user, List.all_eq_true] at hb
          exact hb
        have hnil : users.filter (fun u => !((entryFor (act u)).success)) = [] := by
          rw [List.filter_eq_nil_iff]
          intro u hu
          simp [hall u hu]
        rw [hnil] at h1
        simp at h1
    · have hs := filter_length_split (fun u => (entryFor (act u)).success) users
      omega

/-- Witness for C2: three accounts with exactly one failing (by raising an
unexpected exception) yield an aggregate failure with two successful entries
still present. -/
theorem C2_fanout_witness :
    (_execute_for_each_user users3 demoAct).allSucceeded = false
    ∧ (users3.filter (fun u => (entryFor (demoAct u)).success)).length =
        users3.length - 1 :=
  (C2_fanout_spec users3 demoAct).2.2.2 (by decide)

/-- Claim C10: `list_sftp_backups` returns the empty map (not an error) when
the backup root is missing; every value in the returned map is a non-empty
list of `.desktop` names; subdirectories without launcher files are omitted. -/
theorem C10_list_backups_spec (rootExists : Bool) (entries : List FsEntry) :
    (rootExists = false → list_sftp_backups rootExists entries = [])
    ∧ (∀ p ∈ list_sftp_backups rootExists entries,
        p.2 ≠ [] ∧ ∀ f ∈ p.2, endsWithDesktop f.data = true)
    ∧ ((entries.map entryName).Nodup →
        ∀ d fs, FsEntry.dir d fs ∈ entries →
          fs.filter (fun f => endsWithDesktop f.data) = [] →
          ∀ v, (d, v) ∉ list_sftp_backups rootExists entries) := by
  refine ⟨fun h => by simp [list_sftp_backups, h], ?_, ?_⟩
  · intro p hp
    cases rootExists with
    | false => simp [list_sftp_backups] at hp
    | true =>
      simp only [list_sftp_backups, if_pos] at hp
      rw [List.mem_filterMap] at hp
      obtain ⟨e, he, hge⟩ := hp
      cases e with
      | file n => simp at hge
      | dir d fs =>
        by_cases hne : fs.filter (fun f => endsWithDesktop f.data) = []
        · simp [hne] at hge
        · simp only [hne, if_pos, ne_eq, not_false_iff] at hge
          obtain rfl := Option.some.inj hge
          refine ⟨hne, ?_⟩
          intro f hf
          simpa using (List.mem_filter.mp hf).2
  · intro hnd d fs hmem hfil v hv
    cases rootExists with
    | false => simp [list_sftp_backups] at hv
    | true =>
      simp only [list_sftp_backups, if_pos] at hv
      rw [List.mem_filterMap] at hv
      obtain ⟨e, he, hge⟩ := hv
      cases e with
      | file n => simp at hge
      | dir d' fs' =>
        by_cases hne : fs'.filter (fun f => endsWithDesktop f.data) = []
        · simp [hne] at hge
        · simp only [hne, if_pos, ne_eq, not_false_iff] at hge
          have hdd : d' = d := congrArg Prod.fst (Option.some.inj hge)
          have heq : FsEntry.dir d' fs' = FsEntry.dir d fs :=
            List.inj_on_of_nodup_map hnd he hmem (by simp [entryName, hdd])
          cases heq
          exact hne hfil

/-- Witness for C10: a missing backup root yields the empty map. -/
theorem C10_list_backups_witness :
    list_sftp_backups false backupFsDemo = [] :=
  (C10_list_backups_spec false backupFsDemo).1 rfl

/-- Helper: invariant of the per-request restore loop, by induction over the
requests. -/
theorem restoreGo_spec (m : List (PathKey × PathKey)) (renameOk : PathKey → Bool)
    (reqs : List PathKey) :
    (restoreGo m renameOk reqs).warnings.length = (reqs.filter (reqMiss m)).length
    ∧ (restoreGo m renameOk reqs).errors.length =
        (reqs.filter (reqHitFail m renameOk)).length
    ∧ (restoreGo m renameOk reqs).restoredCount =
        (reqs.filter (reqHitOk m renameOk)).length
    ∧ (restoreGo m renameOk reqs).moved =
        reqs.filterMap (reqMovedEntry m renameOk) := by
  induction reqs with
  | nil => exact ⟨rfl, rfl, rfl, rfl⟩
  | cons r rs ih =>
    obtain ⟨ih1, ih2, ih3, ih4⟩ := ih
    cases hl : lookupReal m r with
    | none =>
      simp [restoreGo, hl, List.filter_cons, List.filterMap_cons,
        reqMiss, reqHitFail, reqHitOk, reqMovedEntry, ih1, ih2, ih3, ih4]
    | some real =>
      by_cases hr : renameOk real
      · simp [restoreGo, hl, hr, List.filter_cons, List.filterMap_cons,
          reqMiss, reqHitFail, reqHitOk, reqMovedEntry, ih1, ih2, ih3, ih4]
      · simp [restoreGo, hl, hr, List.filter_cons, List.filterMap_cons,
          reqMiss, reqHitFail, reqHitOk, reqMovedEntry, ih1, ih2, ih3, ih4]

/-- Claim C5: in `sftp_restore_shortcuts` every requested path is normalized
and looked up in the (subdirectory, normalized name) index of the backed-up
launchers; a hit (whose rename succeeds) moves the real backed-up entry and
increments the restored count, a miss is recorded as a warning and never as
an error; in particular a request for "App-999.desktop" restores the backup
entry literally named "App-7.desktop" in the same subdirectory. -/
theorem C5_restore_fuzzy_spec (entries requests : List PathKey)
    (renameOk : PathKey → Bool) :
    ((sftp_restore_shortcuts entries requests renameOk).warnings.length =
      (requests.filter (reqMiss (buildBackupsMap entries))).length)
    ∧ ((sftp_restore_shortcuts entries requests renameOk).errors.length =
      (requests.filter (reqHitFail (buildBackupsMap entries) renameOk)).length)
    ∧ ((sftp_restore_shortcuts entries requests renameOk).restoredCount =
      (requests.filter (reqHitOk (buildBackupsMap entries) renameOk)).length)
    ∧ ((sftp_restore_shortcuts entries requests renameOk).moved =
      requests.filterMap (reqMovedEntry (buildBackupsMap entries) renameOk))
    ∧ (sftp_restore_shortcuts demoEntries demoRequests (fun _ => true) =
        { restoredCount := 1, moved := [(dirDesk, app7)],
          errors := [], warnings := [] }) := by
  have h := restoreGo_spec (buildBackupsMap entries) renameOk requests
  exact ⟨h.1, h.2.1, h.2.2.1, h.2.2.2, by decide⟩

/-- Helper: a list is a `myIsPrefix` of itself followed by anything. -/
theorem myIsPrefix_append_self (xs ys : List Char) :
    myIsPrefix xs (xs ++ ys) = true := by
  induction xs with
  | nil => rfl
  | cons a as ih => simp [myIsPrefix, ih]

/-- Helper: `takeWhile` walks through a prefix whose members all satisfy the
predicate. -/
theorem takeWhile_append_of_all {p : Char → Bool} (xs ys : List Char)
    (h : ∀ c ∈ xs, p c = true) :
    (xs ++ ys).takeWhile p = xs ++ ys.takeWhile p := by
  induction xs with
  | nil => simp
  | cons a as ih =>
    have ha : p a = true := h a (List.mem_cons_self a as)
    simp [List.takeWhile_cons, ha,
      ih (fun c hc => h c (List.mem_cons_of_mem a hc))]

/-- Helper: `dropWhile` discards a prefix whose members all satisfy the
predicate. -/
theorem dropWhile_append_of_all {p : Char → Bool} (xs ys : List Char)
    (h : ∀ c ∈ xs, p c = true) :
    (xs ++ ys).dropWhile p = ys.dropWhile p := by
  induction xs with
  | nil => simp
  | cons a as ih =>
    have ha : p a = true := h a (List.mem_cons_self a as)
    simp [List.dropWhile_cons, ha,
      ih (fun c hc => h c (List.mem_cons_of_mem a hc))]

/-- Helper: the numeric-suffix stripper removes exactly a separator plus an
all-digit tail. -/
theorem stripNumericTail_strip (t d : List Char) (sep : Char)
    (hsep : isSepChar sep = true) (hd : d ≠ [])
    (hdig : ∀ c ∈ d, c.isDigit = true) :
    stripNumericTail (t ++ sep :: d) = t := by
  have hsd : sep.isDigit = false := by
    have : sep = '-' ∨ sep = '_' := by simpa [isSepChar] using hsep
    rcases this with rfl | rfl <;> decide
  have hrev : (t ++ sep :: d).reverse = d.reverse ++ sep :: t.reverse := by
    simp
  have hall : ∀ c ∈ d.reverse, Char.isDigit c = true := by
    intro c hc
    exact hdig c (List.mem_reverse.mp hc)
  have htake : (d.reverse ++ sep :: t.reverse).takeWhile Char.isDigit
      = d.reverse := by
    rw [takeWhile_append_of_all _ _ hall]
    simp [List.takeWhile_cons, hsd]
  have hdrop : (d.reverse ++ sep :: t.reverse).dropWhile Char.isDigit
      = sep :: t.reverse := by
    rw [dropWhile_append_of_all _ _ hall]
    simp [List.dropWhile_cons, hsd]
  obtain ⟨e, es, hde⟩ : ∃ e es, d.reverse = e :: es := by
    cases hdr : d.reverse with
    | nil => exact absurd (by simpa using hdr) hd
    | cons e es => exact ⟨e, es, rfl⟩
  simp only [stripNumericTail, hrev]
  rw [htake, hdrop, hde]
  simp [hsep]

/-- Helper: appending the launcher extension always ends with it. -/
theorem endsWithDesktop_append (xs : List Char) :
    endsWithDesktop (xs ++ desktopChars) = true := by
  unfold endsWithDesktop myIsSuffix
  rw [List.reverse_append]
  exact myIsPrefix_append_self _ _

/-- Helper: taking everything but the extension recovers the stem. -/
theorem take_stem (xs : List Char) :
    (xs ++ desktopChars).take ((xs ++ desktopChars).length - desktopChars.length)
      = xs := by
  rw [List.length_append, Nat.add_sub_cancel]
  exact List.take_left xs desktopChars

/-- Helper: `takeWhile` of a list whose head fails the predicate is empty. -/
theorem takeWhile_eq_nil_of_head (p : Char → Bool) (l : List Char)
    (h : ∀ c, l.head? = some c → p c = false) : l.takeWhile p = [] := by
  cases l with
  | nil => rfl
  | cons c tl => simp [List.takeWhile_cons, h c rfl]

/-- Helper: `dropWhile` of a list whose head fails the predicate drops
nothing. -/
theorem dropWhile_eq_self_of_head (p : Char → Bool) (l : List Char)
    (h : ∀ c, l.head? = some c → p c = false) : l.dropWhile p = l := by
  cases l with
  | nil => rfl
  | cons c tl => simp [List.dropWhile_cons, h c rfl]

/-- Helper: the numeric-suffix stripper removes a bare all-digit tail (no
separator) from a stem that does not itself end in a digit or a separator. -/
theorem stripNumericTail_strip_bare (t d : List Char) (hd : d ≠ [])
    (hdig : ∀ c ∈ d, c.isDigit = true)
    (hlast : ∀ c, t.getLast? = some c → c.isDigit = false ∧ isSepChar c = false) :
    stripNumericTail (t ++ d) = t := by
  have hrevhead : ∀ c, t.reverse.head? = some c →
      c.isDigit = false ∧ isSepChar c = false := by
    intro c hc
    exact hlast c (by rwa [List.head?_reverse] at hc)
  have htW : t.reverse.takeWhile Char.isDigit = [] :=
    takeWhile_eq_nil_of_head _ _ (fun c hc => (hrevhead c hc).1)
  have hdW : t.reverse.dropWhile Char.isDigit = t.reverse :=
    dropWhile_eq_self_of_head _ _ (fun c hc => (hrevhead c hc).1)
  have hrev2 : (t ++ d).reverse = d.reverse ++ t.reverse := by
    simp
  have hall : ∀ c ∈ d.reverse, Char.isDigit c = true := by
    intro c hc
    exact hdig c (List.mem_reverse.mp hc)
  have htake : (d.reverse ++ t.reverse).takeWhile Char.isDigit = d.reverse := by
    rw [takeWhile_append_of_all _ _ hall, htW, List.append_nil]
  have hdrop : (d.reverse ++ t.reverse).dropWhile Char.isDigit = t.reverse := by
    rw [dropWhile_append_of_all _ _ hall, hdW]
  obtain ⟨e, es, hde⟩ : ∃ e es, d.reverse = e :: es := by
    cases hdr : d.reverse with
    | nil => exact absurd (by simpa using hdr) hd
    | cons e es => exact ⟨e, es, rfl⟩
  simp only [stripNumericTail, hrev2]
  rw [htake, hdrop, hde]
  cases ht : t.reverse with
  | nil =>
    simp [(List.reverse_eq_nil_iff.mp ht).symm]
  | cons c tl =>
    have hc : isSepChar c = false := (hrevhead c (by rw [ht]; rfl)).2
    simp only [hc, Bool.false_eq_true, if_false]
    rw [← ht, List.reverse_reverse]

/-- Helper: the numeric-suffix stripper leaves a stem without a trailing
digit unchanged. -/
theorem stripNumericTail_id (t : List Char)
    (hlast : ∀ c, t.getLast? = some c → c.isDigit = false) :
    stripNumericTail t = t := by
  have htW : t.reverse.takeWhile Char.isDigit = [] :=
    takeWhile_eq_nil_of_head _ _
      (fun c hc => hlast c (by rwa [List.head?_reverse] at hc))
  simp only [stripNumericTail, htW]

/-- Claim C4 (amended): `_normalize_shortcut_name` strips an optional trailing
`[-_]` + digit run from the stem of a `.desktop` filename — with a `-`/`_`
separator, or as a bare digit run, while a stem without a trailing digit run
is left as it is; the original filename is used unchanged not only when the
stripped stem is empty but whenever it consists solely of spaces, hyphens and
underscores; filenames without the `.desktop` extension pass through
unchanged. -/
theorem C4_normalize_amended (t d : List Char) (sep : Char)
    (hsep : sep = '-' ∨ sep = '_') (hd : d ≠ [])
    (hdig : ∀ c ∈ d, c.isDigit = true) :
    (normalizeShortcutChars ((t ++ sep :: d) ++ desktopChars) =
      if t.all isStripChar then (t ++ sep :: d) ++ desktopChars
      else t ++ desktopChars)
    ∧ ((∀ c, t.getLast? = some c → c.isDigit = false ∧ isSepChar c = false) →
        normalizeShortcutChars ((t ++ d) ++ desktopChars) =
          if t.all isStripChar then (t ++ d) ++ desktopChars
          else t ++ desktopChars)
    ∧ ((∀ c, t.getLast? = some c → c.isDigit = false) →
        normalizeShortcutChars (t ++ desktopChars) = t ++ desktopChars)
    ∧ (∀ cs : List Char, endsWithDesktop cs = false →
        normalizeShortcutChars cs = cs) := by
  refine ⟨?_, ?_, ?_, ?_⟩
  · have hsep' : isSepChar sep = true := by
      rcases hsep with rfl | rfl <;> decide
    have h1 := stripNumericTail_strip t d sep hsep' hd hdig
    simp only [normalizeShortcutChars, endsWithDesktop_append, take_stem, h1,
      if_true]
  · intro hlast
    have h1 := stripNumericTail_strip_bare t d hd hdig hlast
    simp only [normalizeShortcutChars, endsWithDesktop_append, take_stem, h1,
      if_true]
  · intro hlast
    have h1 := stripNumericTail_id t hlast
    simp only [normalizeShortcutChars, endsWithDesktop_append, take_stem, h1,
      if_true, ite_self]
  · intro cs h
    simp [normalizeShortcutChars, h]

/-- Counterexample to claim C4 as stated: stripping the stem of
"_-5.desktop" yields the non-empty stem "_", yet the function does not
return "_.desktop" — it falls back to the original filename because the
stripped stem contains only strip characters. -/
theorem C4_normalize_counterexample :
    cexName.data = cexStem.data ++ desktopChars
    ∧ stripNumericTail cexStem.data = cexStripped.data
    ∧ cexStripped.data ≠ []
    ∧ _normalize_shortcut_name cexName = cexName
    ∧ _normalize_shortcut_name cexName ≠ cexStripped ++ desktopExt := by
  decide

/-- Witness for C4: "App-142.desktop" and "App-7.desktop" normalize to the
same key "App.desktop"; the separator is optional ("App7.desktop" also
normalizes to "App.desktop", while "5.desktop" falls back to itself because
its stem is consumed entirely); a stem without a trailing digit run
("App.desktop") is left unchanged. -/
theorem C4_normalize_witness :
    _normalize_shortcut_name app142 = appKey
    ∧ _normalize_shortcut_name app7 = appKey
    ∧ _normalize_shortcut_name appBare = appKey
    ∧ _normalize_shortcut_name bare5 = bare5
    ∧ _normalize_shortcut_name appKey = appKey := by
  have hlastApp : ∀ c, appStem.data.getLast? = some c →
      c.isDigit = false ∧ isSepChar c = false := by
    intro c hc
    have h2 : appStem.data.getLast? = some ('p') := by decide
    rw [h2] at hc
    cases Option.some.inj hc
    exact ⟨by decide, by decide⟩
  have h1 := (C4_normalize_amended appStem.data digits142.data '-'
    (Or.inl rfl) (by decide) (by decide)).1
  have h2 := (C4_normalize_amended appStem.data digits7.data '-'
    (Or.inl rfl) (by decide) (by decide)).1
  have h3 := (C4_normalize_amended appStem.data digits7.data '-'
    (Or.inl rfl) (by decide) (by decide)).2.1 hlastApp
  have h4 := (C4_normalize_amended ([] : List Char) digits5.data '-'
    (Or.inl rfl) (by decide) (by decide)).2.1
    (by intro c hc; simp at hc)
  have h5 := (C4_normalize_amended appStem.data digits5.data '-'
    (Or.inl rfl) (by decide) (by decide)).2.2.1
    (fun c hc => (hlastApp c hc).1)
  refine ⟨?_, ?_, ?_, ?_, ?_⟩
  · have e : app142.data = (appStem.data ++ '-' :: digits142.data) ++ desktopChars := by
      decide
    unfold _normalize_shortcut_name
    rw [e, h1]
    decide
  · have e : app7.data = (appStem.data ++ '-' :: digits7.data) ++ desktopChars := by
      decide
    unfold _normalize_shortcut_name
    rw [e, h2]
    decide
  · have e : appBare.data = (appStem.data ++ digits7.data) ++ desktopChars := by
      decide
    unfold _normalize_shortcut_name
    rw [e, h3]
    decide
  · have e : bare5.data = (([] : List Char) ++ digits5.data) ++ desktopChars := by
      decide
    unfold _normalize_shortcut_name
    rw [e, h4]
    decide
  · have e : appKey.data = appStem.data ++ desktopChars := by
      decide
    unfold _normalize_shortcut_name
    rw [e, h5]
    decide

/-- Helper: membership in an octet-sorted insertion. -/
theorem mem_insertByOctet {x a : String} {l : List String} :
    a ∈ insertByOctet x l ↔ a = x ∨ a ∈ l := by
  induction l with
  | nil => simp [insertByOctet]
  | cons y ys ih =>
    by_cases h : lastOctet y < lastOctet x
    · simp only [insertByOctet, if_pos h, List.mem_cons, ih]
      tauto
    · simp [insertByOctet, if_neg h]

/-- Helper: sorting by trailing octet preserves membership. -/
theorem mem_sortByOctet {a : String} {l : List String} :
    a ∈ sortByOctet l ↔ a ∈ l := by
  induction l with
  | nil => simp [sortByOctet]
  | cons x xs ih => simp [sortByOctet, mem_insertByOctet, ih]

/-- Helper: inserting into an octet-sorted list keeps it sorted. -/
theorem sorted_insertByOctet (x : String) (l : List String)
    (h : List.Sorted (fun a b => lastOctet a ≤ lastOctet b) l) :
    List.Sorted (fun a b => lastOctet a ≤ lastOctet b) (insertByOctet x l) := by
  induction l with
  | nil => simp [insertByOctet]
  | cons y ys ih =>
    rw [List.sorted_cons] at h
    obtain ⟨hy, hys⟩ := h
    by_cases hlt : lastOctet y < lastOctet x
    · simp only [insertByOctet, if_pos hlt]
      rw [List.sorted_cons]
      refine ⟨?_, ih hys⟩
      intro b hb
      rcases mem_insertByOctet.mp hb with rfl | hb'
      · exact Nat.le_of_lt hlt
      · exact hy b hb'
    · simp only [insertByOctet, if_neg hlt]
      rw [List.sorted_cons]
      refine ⟨?_, ?_⟩
      · intro b hb
        rcases List.mem_cons.mp hb with rfl | hb'
        · exact Nat.le_of_not_lt hlt
        · exact Nat.le_trans (Nat.le_of_not_lt hlt) (hy b hb')
      · rw [List.sorted_cons]
        exact ⟨hy, hys⟩

/-- Helper: `sortByOctet` sorts. -/
theorem sorted_sortByOctet (l : List String) :
    List.Sorted (fun a b => lastOctet a ≤ lastOctet b) (sortByOctet l) := by
  induction l with
  | nil => simp [sortByOctet]
  | cons x xs ih =>
    simp only [sortByOctet]
    exact sorted_insertByOctet x _ ih

/-- Helper: `dropIp` only removes elements. -/
theorem dropIp_subset (l : List String) (o : Option String) : dropIp l o ⊆ l := by
  cases o with
  | none => exact fun a ha => ha
  | some x =>
    simp only [dropIp]
    split_ifs
    · exact fun a ha => List.mem_of_mem_erase ha
    · exact fun a ha => ha

/-- Helper: `dropIp` preserves the absence of duplicates. -/
theorem dropIp_nodup (l : List String) (o : Option String) (h : l.Nodup) :
    (dropIp l o).Nodup := by
  cases o with
  | none => exact h
  | some x =>
    simp only [dropIp]
    split_ifs
    · exact h.erase x
    · exact h

/-- Helper: removing an address from a duplicate-free list removes it. -/
theorem not_mem_dropIp (l : List String) (x : String) (h : l.Nodup)
    (hx : x ≠ emptyStr) : x ∉ dropIp l (some x) := by
  intro hmem
  simp only [dropIp] at hmem
  split_ifs at hmem with hc
  · exact ((h.mem_erase_iff).mp hmem).1 rfl
  · exact hc ⟨hx, List.ne_nil_of_mem hmem, hmem⟩

/-- Helper: `dropExcluded` only removes elements. -/
theorem dropExcluded_subset (l exclusions : List String) :
    dropExcluded l exclusions ⊆ l := by
  unfold dropExcluded
  split_ifs
  · exact fun a ha => (List.mem_filter.mp ha).1
  · exact fun a ha => ha

/-- Helper: every excluded address is absent from the exclusion filter's
output. -/
theorem not_mem_dropExcluded (l exclusions : List String) (e : String)
    (he : e ∈ exclusions) : e ∉ dropExcluded l exclusions := by
  intro hmem
  unfold dropExcluded at hmem
  split_ifs at hmem with hc
  · have := (List.mem_filter.mp hmem).2
    simp at this
    exact this he
  · exact hc ⟨List.ne_nil_of_mem hmem, List.ne_nil_of_mem he⟩

/-- Claim C6: the discovery result has the caller's own address, the gateway
address and every manual exclusion removed, is sorted ascending by the
trailing numeric component, and discovery never fails — when every strategy
finds nothing it produces the empty list, not an error.  (The candidate list
produced by one scan is assumed duplicate-free.) -/
theorem C6_discover_spec (candidates : List String)
    (server gateway : Option String) (excl : List String)
    (hnd : candidates.Nodup) :
    (∀ s, server = some s → s ≠ emptyStr →
        s ∉ discover_post candidates server gateway excl)
    ∧ (∀ g, gateway = some g → g ≠ emptyStr →
        g ∉ discover_post candidates server gateway excl)
    ∧ (∀ e ∈ excl, e ∉ discover_post candidates server gateway excl)
    ∧ List.Sorted (fun a b => lastOctet a ≤ lastOctet b)
        (discover_post candidates server gateway excl)
    ∧ (∀ pc fr, pc fr = [] →
        discover_ips none none pc fr server gateway excl = []) := by
  have hmem : ∀ a, a ∈ discover_post candidates server gateway excl →
      a ∈ dropExcluded (dropIp (dropIp candidates server) gateway) excl := by
    intro a ha
    unfold discover_post at ha
    split_ifs at ha
    · exact mem_sortByOctet.mp ha
    · exact ha
  refine ⟨?_, ?_, ?_, ?_, ?_⟩
  · rintro s rfl hs hmem'
    exact not_mem_dropIp candidates s hnd hs
      (dropIp_subset _ _ (dropExcluded_subset _ _ (hmem s hmem')))
  · rintro g rfl hg hmem'
    exact not_mem_dropIp (dropIp candidates server) g (dropIp_nodup _ _ hnd) hg
      (dropExcluded_subset _ _ (hmem g hmem'))
  · intro e he hmem'
    exact not_mem_dropExcluded _ _ e he (hmem e hmem')
  · unfold discover_post
    split_ifs with h3
    · exact sorted_sortByOctet _
    · rw [not_ne_iff.mp h3]
      exact List.sorted_nil
  · intro pc fr hpf
    cases server with
    | none =>
      cases gateway with
      | none => simp [discover_ips, pickCandidates, discover_post, hpf, dropIp, dropExcluded]
      | some g => simp [discover_ips, pickCandidates, discover_post, hpf, dropIp, dropExcluded]
    | some s =>
      cases gateway with
      | none => simp [discover_ips, pickCandidates, discover_post, hpf, dropIp, dropExcluded]
      | some g => simp [discover_ips, pickCandidates, discover_post, hpf, dropIp, dropExcluded]

/-- Witness for C6: the spec's scenario — candidates .110, .101, gateway .1,
.105 with self-address .50, gateway .1 excluded manually as well — yields
exactly [.101, .105, .110] in ascending octet order. -/
theorem C6_discover_witness :
    scenServer ∉ discover_post scenCandidates (some scenServer) (some scenGateway) scenExcl
    ∧ scenGateway ∉ discover_post scenCandidates (some scenServer) (some scenGateway) scenExcl
    ∧ discover_post scenCandidates (some scenServer) (some scenGateway) scenExcl
        = [ip101, ip105, ip110] := by
  have h := C6_discover_spec scenCandidates (some scenServer) (some scenGateway)
    scenExcl (by decide)
  exact ⟨h.1 scenServer rfl (by decide), h.2.1 scenGateway rfl (by decide), by decide⟩

/-- Helper: reading the key just written. -/
theorem alistGet_put_self {α β : Type} [DecidableEq α] (m : List (α × β))
    (k : α) (v : β) : alistGet (alistPut m k v) k = some v := by
  induction m with
  | nil => simp [alistPut, alistGet]
  | cons p rest ih =>
    obtain ⟨k0, v0⟩ := p
    by_cases h : k0 = k
    · simp [alistPut, alistGet, h]
    · simp [alistPut, alistGet, h, ih]

/-- Helper: writing one key leaves the other keys' reads unchanged. -/
theorem alistGet_put_other {α β : Type} [DecidableEq α] (m : List (α × β))
    (k k' : α) (v : β) (h : k' ≠ k) :
    alistGet (alistPut m k v) k' = alistGet m k' := by
  induction m with
  | nil => simp [alistPut, alistGet, Ne.symm h]
  | cons p rest ih =>
    obtain ⟨k0, v0⟩ := p
    by_cases h0 : k0 = k
    · subst h0
      simp [alistPut, alistGet, Ne.symm h]
    · simp only [alistPut, alistGet, if_neg h0]
      by_cases h1 : k0 = k'
      · simp [alistGet, h1]
      · simp [alistGet, h1, ih]

/-- Helper: a key absent from the key list reads as `none`. -/
theorem alistGet_none_of_not_mem {α β : Type} [DecidableEq α]
    (m : List (α × β)) (k : α) (h : k ∉ m.map Prod.fst) :
    alistGet m k = none := by
  induction m with
  | nil => rfl
  | cons p rest ih =>
    obtain ⟨k0, v0⟩ := p
    simp only [List.map_cons, List.mem_cons] at h
    push_neg at h
    simp [alistGet, Ne.symm h.1, ih h.2]

/-- Helper: deleting a key from a duplicate-free dict makes it unreadable. -/
theorem alistGet_erase_self {α β : Type} [DecidableEq α] (m : List (α × β))
    (k : α) (h : (m.map Prod.fst).Nodup) :
    alistGet (eraseKey m k) k = none := by
  induction m with
  | nil => rfl
  | cons p rest ih =>
    obtain ⟨k0, v0⟩ := p
    rw [List.map_cons, List.nodup_cons] at h
    by_cases hk : k0 = k
    · subst hk
      simp only [eraseKey, if_pos rfl]
      exact alistGet_none_of_not_mem rest k0 h.1
    · simp [eraseKey, alistGet, hk, ih h.2]

/-- Helper: deleting one key leaves the other keys' reads unchanged. -/
theorem alistGet_erase_other {α β : Type} [DecidableEq α] (m : List (α × β))
    (k k' : α) (h : k' ≠ k) :
    alistGet (eraseKey m k) k' = alistGet m k' := by
  induction m with
  | nil => rfl
  | cons p rest ih =>
    obtain ⟨k0, v0⟩ := p
    by_cases hk : k0 = k
    · subst hk
      simp [eraseKey, alistGet, Ne.symm h]
    · simp only [eraseKey, if_neg hk]
      by_cases h1 : k0 = k'
      · simp [alistGet, h1]
      · simp [alistGet, h1, ih]

/-- Helper: deletion only removes keys. -/
theorem keys_eraseKey_subset {α β : Type} [DecidableEq α] (m : List (α × β))
    (k : α) : (eraseKey m k).map Prod.fst ⊆ m.map Prod.fst := by
  induction m with
  | nil => exact fun a ha => ha
  | cons p rest ih =>
    obtain ⟨k0, v0⟩ := p
    by_cases hk : k0 = k
    · simp only [eraseKey, if_pos hk]
      exact fun a ha => List.mem_cons_of_mem _ ha
    · simp only [eraseKey, if_neg hk, List.map_cons]
      intro a ha
      rcases List.mem_cons.mp ha with rfl | ha'
      · exact List.mem_cons_self _ _
      · exact List.mem_cons_of_mem _ (ih ha')

/-- Helper: deletion preserves duplicate-free keys. -/
theorem nodup_keys_eraseKey {α β : Type} [DecidableEq α] (m : List (α × β))
    (k : α) (h : (m.map Prod.fst).Nodup) :
    ((eraseKey m k).map Prod.fst).Nodup := by
  induction m with
  | nil => exact h
  | cons p rest ih =>
    obtain ⟨k0, v0⟩ := p
    rw [List.map_cons, List.nodup_cons] at h
    by_cases hk : k0 = k
    · simp only [eraseKey, if_pos hk]
      exact h.2
    · simp only [eraseKey, if_neg hk, List.map_cons, List.nodup_cons]
      exact ⟨fun hmem => h.1 (keys_eraseKey_subset rest k hmem), ih h.2⟩

/-- Helper: writing adds at most the written key. -/
theorem keys_alistPut_subset {α β : Type} [DecidableEq α] (m : List (α × β))
    (k : α) (v : β) :
    (alistPut m k v).map Prod.fst ⊆ k :: m.map Prod.fst := by
  induction m with
  | nil => simp [alistPut]
  | cons p rest ih =>
    obtain ⟨k0, v0⟩ := p
    by_cases hk : k0 = k
    · simp only [alistPut, if_pos hk, List.map_cons]
      intro a ha
      rcases List.mem_cons.mp ha with rfl | ha'
      · simp [hk]
      · simp [List.mem_cons_of_mem, ha']
    · simp only [alistPut, if_neg hk, List.map_cons]
      intro a ha
      rcases List.mem_cons.mp ha with rfl | ha'
      · simp
      · rcases List.mem_cons.mp (ih ha') with rfl | ha''
        · simp
        · simp [ha'']

/-- Helper: writing preserves duplicate-free keys. -/
theorem nodup_keys_alistPut {α β : Type} [DecidableEq α] (m : List (α × β))
    (k : α) (v : β) (h : (m.map Prod.fst).Nodup) :
    ((alistPut m k v).map Prod.fst).Nodup := by
  induction m with
  | nil => simp [alistPut]
  | cons p rest ih =>
    obtain ⟨k0, v0⟩ := p
    rw [List.map_cons, List.nodup_cons] at h
    by_cases hk : k0 = k
    · simp only [alistPut, if_pos hk, List.map_cons, List.nodup_cons]
      exact h
    · simp only [alistPut, if_neg hk, List.map_cons, List.nodup_cons]
      refine ⟨fun hmem => ?_, ih h.2⟩
      rcases List.mem_cons.mp (keys_alistPut_subset rest k v hmem) with rfl | ha
      · exact hk rfl
      · exact h.1 ha

/-- Claim C7: the tunnel registry keeps at most one process per host —
starting a tunnel for a host with a registered process first terminates
(gracefully, forcibly on a grace-window timeout) and removes the old one; on
any failure outcome the new child is terminated and deregistered before the
call returns; only a successful start leaves an entry, and other hosts'
entries are untouched. -/
theorem C7_tunnel_registry_spec (reg : List (String × Nat)) (ip : String)
    (newPid : Nat) (gOld gNew : Bool) (oc : TunnelOutcome)
    (hkeys : (reg.map Prod.fst).Nodup) :
    (((_start_vnc_tunnel reg ip newPid gOld gNew oc).registry.map Prod.fst).Nodup)
    ∧ (∀ oldPid, alistGet reg ip = some oldPid →
        (oldPid, !gOld) ∈ (_start_vnc_tunnel reg ip newPid gOld gNew oc).terminated)
    ∧ ((_start_vnc_tunnel reg ip newPid gOld gNew oc).success = true ↔
        oc = TunnelOutcome.ready)
    ∧ ((_start_vnc_tunnel reg ip newPid gOld gNew oc).success = true →
        alistGet (_start_vnc_tunnel reg ip newPid gOld gNew oc).registry ip =
          some newPid)
    ∧ ((_start_vnc_tunnel reg ip newPid gOld gNew oc).success = false →
        alistGet (_start_vnc_tunnel reg ip newPid gOld gNew oc).registry ip = none)
    ∧ ((_start_vnc_tunnel reg ip newPid gOld gNew oc).success = false →
        oc ≠ TunnelOutcome.spawnFails →
        (newPid, !gNew) ∈ (_start_vnc_tunnel reg ip newPid gOld gNew oc).terminated)
    ∧ (∀ h, h ≠ ip →
        alistGet (_start_vnc_tunnel reg ip newPid gOld gNew oc).registry h =
          alistGet reg h) := by
  cases hold : alistGet reg ip with
  | none =>
    cases oc with
    | spawnFails =>
      have hreg : (_start_vnc_tunnel reg ip newPid gOld gNew
          TunnelOutcome.spawnFails).registry = reg := by
        simp [_start_vnc_tunnel, hold]
      have hterm : (_start_vnc_tunnel reg ip newPid gOld gNew
          TunnelOutcome.spawnFails).terminated = [] := by
        simp [_start_vnc_tunnel, hold]
      have hsucc : (_start_vnc_tunnel reg ip newPid gOld gNew
          TunnelOutcome.spawnFails).success = false := by
        simp [_start_vnc_tunnel, hold]
      refine ⟨?_, ?_, ?_, ?_, ?_, ?_, ?_⟩
      · rw [hreg]; exact hkeys
      · intro o h0; exact Option.noConfusion h0
      · rw [hsucc]; simp
      · intro h0; rw [hsucc] at h0; exact Bool.noConfusion h0
      · intro _; rw [hreg]; exact hold
      · intro _ hno; exact absurd rfl hno
      · intro h hne; rw [hreg]
    | ready =>
      have hreg : (_start_vnc_tunnel reg ip newPid gOld gNew
          TunnelOutcome.ready).registry = alistPut reg ip newPid := by
        simp [_start_vnc_tunnel, hold]
      have hsucc : (_start_vnc_tunnel reg ip newPid gOld gNew
          TunnelOutcome.ready).success = true := by
        simp [_start_vnc_tunnel, hold]
      refine ⟨?_, ?_, ?_, ?_, ?_, ?_, ?_⟩
      · rw [hreg]; exact nodup_keys_alistPut reg ip newPid hkeys
      · intro o h0; exact Option.noConfusion h0
      · rw [hsucc]; simp
      · intro _; rw [hreg]; exact alistGet_put_self reg ip newPid
      · intro h0; rw [hsucc] at h0; exact Bool.noConfusion h0
      · intro h0 _; rw [hsucc] at h0; exact Bool.noConfusion h0
      · intro h hne; rw [hreg]; exact alistGet_put_other reg ip h newPid hne
    | notReady =>
      have hreg : (_start_vnc_tunnel reg ip newPid gOld gNew
          TunnelOutcome.notReady).registry =
          eraseKey (alistPut reg ip newPid) ip := by
        simp [_start_vnc_tunnel, hold]
      have hterm : (_start_vnc_tunnel reg ip newPid gOld gNew
          TunnelOutcome.notReady).terminated = [(newPid, !gNew)] := by
        simp [_start_vnc_tunnel, hold, killProc]
      have hsucc : (_start_vnc_tunnel reg ip newPid gOld gNew
          TunnelOutcome.notReady).success = false := by
        simp [_start_vnc_tunnel, hold]
      refine ⟨?_, ?_, ?_, ?_, ?_, ?_, ?_⟩
      · rw [hreg]; exact nodup_keys_eraseKey _ ip (nodup_keys_alistPut reg ip newPid hkeys)
      · intro o h0; exact Option.noConfusion h0
      · rw [hsucc]; simp
      · intro h0; rw [hsucc] at h0; exact Bool.noConfusion h0
      · intro _; rw [hreg]
        exact alistGet_erase_self _ ip (nodup_keys_alistPut reg ip newPid hkeys)
      · intro _ _; rw [hterm]; simp
      · intro h hne; rw [hreg, alistGet_erase_other _ ip h hne]
        exact alistGet_put_other reg ip h newPid hne
    | exnAfterSpawn =>
      have hreg : (_start_vnc_tunnel reg ip newPid gOld gNew
          TunnelOutcome.exnAfterSpawn).registry =
          eraseKey (alistPut reg ip newPid) ip := by
        simp [_start_vnc_tunnel, hold]
      have hterm : (_start_vnc_tunnel reg ip newPid gOld gNew
          TunnelOutcome.exnAfterSpawn).terminated = [(newPid, !gNew)] := by
        simp [_start_vnc_tunnel, hold, killProc]
      have hsucc : (_start_vnc_tunnel reg ip newPid gOld gNew
          TunnelOutcome.exnAfterSpawn).success = false := by
        simp [_start_vnc_tunnel, hold]
      refine ⟨?_, ?_, ?_, ?_, ?_, ?_, ?_⟩
      · rw [hreg]; exact nodup_keys_eraseKey _ ip (nodup_keys_alistPut reg ip newPid hkeys)
      · intro o h0; exact Option.noConfusion h0
      · rw [hsucc]; simp
      · intro h0; rw [hsucc] at h0; exact Bool.noConfusion h0
      · intro _; rw [hreg]
        exact alistGet_erase_self _ ip (nodup_keys_alistPut reg ip newPid hkeys)
      · intro _ _; rw [hterm]; simp
      · intro h hne; rw [hreg, alistGet_erase_other _ ip h hne]
        exact alistGet_put_other reg ip h newPid hne
  | some oldPid =>
    have hnd1 : ((eraseKey reg ip).map Prod.fst).Nodup :=
      nodup_keys_eraseKey reg ip hkeys
    cases oc with
    | spawnFails =>
      have hreg : (_start_vnc_tunnel reg ip newPid gOld gNew
          TunnelOutcome.spawnFails).registry = eraseKey reg ip := by
        simp [_start_vnc_tunnel, hold]
      have hterm : (_start_vnc_tunnel reg ip newPid gOld gNew
          TunnelOutcome.spawnFails).terminated = [(oldPid, !gOld)] := by
        simp [_start_vnc_tunnel, hold, killProc]
      have hsucc : (_start_vnc_tunnel reg ip newPid gOld gNew
          TunnelOutcome.spawnFails).success = false := by
        simp [_start_vnc_tunnel, hold]
      refine ⟨?_, ?_, ?_, ?_, ?_, ?_, ?_⟩
      · rw [hreg]; exact hnd1
      · intro o h0; cases Option.some.inj h0; rw [hterm]; simp
      · rw [hsucc]; simp
      · intro h0; rw [hsucc] at h0; exact Bool.noConfusion h0
      · intro _; rw [hreg]; exact alistGet_erase_self reg ip hkeys
      · intro _ hno; exact absurd rfl hno
      · intro h hne; rw [hreg]; exact alistGet_erase_other reg ip h hne
    | ready =>
      have hreg : (_start_vnc_tunnel reg ip newPid gOld gNew
          TunnelOutcome.ready).registry =
          alistPut (eraseKey reg ip) ip newPid := by
        simp [_start_vnc_tunnel, hold]
      have hterm : (_start_vnc_tunnel reg ip newPid gOld gNew
          TunnelOutcome.ready).terminated = [(oldPid, !gOld)] := by
        simp [_start_vnc_tunnel, hold, killProc]
      have hsucc : (_start_vnc_tunnel reg ip newPid gOld gNew
          TunnelOutcome.ready).success = true := by
        simp [_start_vnc_tunnel, hold]
      refine ⟨?_, ?_, ?_, ?_, ?_, ?_, ?_⟩
      · rw [hreg]; exact nodup_keys_alistPut _ ip newPid hnd1
      · intro o h0; cases Option.some.inj h0; rw [hterm]; simp
      · rw [hsucc]; simp
      · intro _; rw [hreg]; exact alistGet_put_self _ ip newPid
      · intro h0; rw [hsucc] at h0; exact Bool.noConfusion h0
      · intro h0 _; rw [hsucc] at h0; exact Bool.noConfusion h0
      · intro h hne; rw [hreg, alistGet_put_other _ ip h newPid hne]
        exact alistGet_erase_other reg ip h hne
    | notReady =>
      have hreg : (_start_vnc_tunnel reg ip newPid gOld gNew
          TunnelOutcome.notReady).registry =
          eraseKey (alistPut (eraseKey reg ip) ip newPid) ip := by
        simp [_start_vnc_tunnel, hold]
      have hterm : (_start_vnc_tunnel reg ip newPid gOld gNew
          TunnelOutcome.notReady).terminated =
          [(oldPid, !gOld), (newPid, !gNew)] := by
        simp [_start_vnc_tunnel, hold, killProc]
      have hsucc : (_start_vnc_tunnel reg ip newPid gOld gNew
          TunnelOutcome.notReady).success = false := by
        simp [_start_vnc_tunnel, hold]
      refine ⟨?_, ?_, ?_, ?_, ?_, ?_, ?_⟩
      · rw [hreg]; exact nodup_keys_eraseKey _ ip (nodup_keys_alistPut _ ip newPid hnd1)
      · intro o h0; cases Option.some.inj h0; rw [hterm]; simp
      · rw [hsucc]; simp
      · intro h0; rw [hsucc] at h0; exact Bool.noConfusion h0
      · intro _; rw [hreg]
        exact alistGet_erase_self _ ip (nodup_keys_alistPut _ ip newPid hnd1)
      · intro _ _; rw [hterm]; simp
      · intro h hne
        rw [hreg, alistGet_erase_other _ ip h hne,
          alistGet_put_other _ ip h newPid hne]
        exact alistGet_erase_other reg ip h hne
    | exnAfterSpawn =>
      have hreg : (_start_vnc_tunnel reg ip newPid gOld gNew
          TunnelOutcome.exnAfterSpawn).registry =
          eraseKey (alistPut (eraseKey reg ip) ip newPid) ip := by
        simp [_start_vnc_tunnel, hold]
      have hterm : (_start_vnc_tunnel reg ip newPid gOld gNew
          TunnelOutcome.exnAfterSpawn).terminated =
          [(oldPid, !gOld), (newPid, !gNew)] := by
        simp [_start_vnc_tunnel, hold, killProc]
      have hsucc : (_start_vnc_tunnel reg ip newPid gOld gNew
          TunnelOutcome.exnAfterSpawn).success = false := by
        simp [_start_vnc_tunnel, hold]
      refine ⟨?_, ?_, ?_, ?_, ?_, ?_, ?_⟩
      · rw [hreg]; exact nodup_keys_eraseKey _ ip (nodup_keys_alistPut _ ip newPid hnd1)
      · intro o h0; cases Option.some.inj h0; rw [hterm]; simp
      · rw [hsucc]; simp
      · intro h0; rw [hsucc] at h0; exact Bool.noConfusion h0
      · intro _; rw [hreg]
        exact alistGet_erase_self _ ip (nodup_keys_alistPut _ ip newPid hnd1)
      · intro _ _; rw [hterm]; simp
      · intro h hne
        rw [hreg, alistGet_erase_other _ ip h hne,
          alistGet_put_other _ ip h newPid hne]
        exact alistGet_erase_other reg ip h hne

/-- Witness for C7: replacing a registered tunnel for a host with a new one
that becomes ready terminates the old process and registers the new pid. -/
theorem C7_tunnel_registry_witness :
    alistGet (_start_vnc_tunnel tunnelReg0 ipA 9 true true
      TunnelOutcome.ready).registry ipA = some 9
    ∧ (7, false) ∈ (_start_vnc_tunnel tunnelReg0 ipA 9 true true
      TunnelOutcome.ready).terminated := by
  have h := C7_tunnel_registry_spec tunnelReg0 ipA 9 true true
    TunnelOutcome.ready (by decide)
  exact ⟨h.2.2.2.1 (by decide), h.2.1 7 (by decide)⟩

end Menu
